import Mathlib

/-!
Verification development for the multi-process git-metadata extraction/injection
pipeline of `Community-Supported/git-to-hyper/advanced-git-to-hyper.py`.

Python strings are embedded as `List Char` so that the string manipulations the
script performs (`str.replace`, `str.split`, `str.rstrip`, `', '.join`,
substring tests) can be modelled character by character.
-/

namespace GitToHyper

/-- Python strings, embedded as lists of characters. -/
abbrev Str := List Char

/-- The single-quote character (ASCII 39), occurring in
`commit.message.replace('\x27', '\x27\x27')`. -/
def squote : Char := Char.ofNat 39

/-- Embedding of Python `s.replace(q, qq)` for the single-character pattern
`q` = single quote replaced by two single quotes (line 108 of the script):
every occurrence of the quote is replaced, all other characters are kept. -/
def escapeQuotes : Str → Str
  | [] => []
  | c :: rest =>
    if c = squote then squote :: squote :: escapeQuotes rest
    else c :: escapeQuotes rest

/-- Embedding of Python `line.split(c)` for a one-character separator:
splits into the (nonempty) list of chunks between occurrences of `c`;
`[]` splits to `[[]]` as `''.split(c) == ['']` in Python. -/
def splitOnChar (c : Char) : Str → List Str
  | [] => [[]]
  | x :: rest =>
    let r := splitOnChar c rest
    if x = c then [] :: r
    else
      match r with
      | [] => [[x]]
      | t :: ts => (x :: t) :: ts

/-- Embedding of Python `s.rstrip(c)` for `c = '>'` (line 130): removes all
trailing `'>'` characters. -/
def pyRstripGt (s : Str) : Str :=
  (s.reverse.dropWhile (fun c => c = '>')).reverse

/-- Embedding of `line.split('<')[1].rstrip('>')` (line 130).  Python raises
`IndexError` when the line has no `'<'`; this is the `none` case. -/
def parseAuthorMail (line : Str) : Option Str :=
  match splitOnChar '<' line with
  | _ :: t :: _ => some (pyRstripGt t)
  | _ => none

/-- The pattern `'author-mail'` used by the membership test
`'author-mail' in line` (line 130). -/
def authorMailPat : Str := "author-mail".data

/-- The lines of the `git blame --line-porcelain` output that contain
`'author-mail'` (the filter of the list comprehension on line 130). -/
def authorMailLines (output : List Str) : List Str :=
  output.filter (fun l => decide (authorMailPat <:+: l))

/-- Embedding of a Python list comprehension `[f(x) for x in xs]` over a
fallible element computation: the first raised exception aborts the whole
comprehension (no partial list is produced). -/
def pyListComp (f : α → Option β) : List α → Option (List β)
  | [] => some []
  | x :: xs =>
    match f x, pyListComp f xs with
    | some y, some ys => some (y :: ys)
    | _, _ => none

/-- One row of the `blame` table: `[file_hash, author, authors_per_line.count(author)]`
(line 132).  The script names the count column `number_of_chars` although it
counts author-mail lines. -/
structure BlameRow where
  file_hash : String
  author_mail : Str
  number_of_chars : Nat
deriving DecidableEq, Repr

/-- Embedding of `run_git_blame` (lines 126-134), abstracting the
`subprocess.run(git blame ...)` stdout as the given list of output lines.
`authors_per_line` collects the parsed author of every `author-mail` line;
an `IndexError` while parsing (a line without `'<'`) aborts the call
(`none`).  Python then pushes one row per element of `set(authors_per_line)`;
the arbitrary set iteration order is represented by first-occurrence order
(`List.dedup` keeps the last duplicate, so we use `authors.dedup` — claims
about the produced rows are set-level, independent of this order). -/
def run_git_blame (file_hash : String) (output : List Str) : Option (List BlameRow) :=
  match pyListComp parseAuthorMail (authorMailLines output) with
  | none => none
  | some authors =>
      some (authors.dedup.map (fun a => ⟨file_hash, a, authors.count a⟩))

/-- Embedding of `', '.join(names)` (line 118): the inserted separator is the
two characters `','` and `' '`. -/
def joinCF : List Str → Str
  | [] => []
  | [x] => x
  | x :: y :: ys => x ++ ',' :: ' ' :: joinCF (y :: ys)

/-- Reading a comma-delimited field back: splits a string at every occurrence
of the two-character separator `', '`, scanning left to right. -/
def splitCF : Str → List Str
  | [] => [[]]
  | [c] => [[c]]
  | c₁ :: c₂ :: rest =>
    if c₁ = ',' ∧ c₂ = ' ' then [] :: splitCF rest
    else
      match splitCF (c₂ :: rest) with
      | [] => [[c₁]]
      | t :: ts => (c₁ :: t) :: ts

/-- The metadata of one commit, as read from the git library by
`insert_commit_data` (lines 107-119).  `statsFiles` is the key list of
`commit.stats.files` (changed file paths, in order); `message` the raw
commit message. -/
structure CommitInfo where
  hexsha : String
  authoredDate : Nat
  committedDate : Nat
  authorMail : Str
  committerMail : Str
  insertions : Nat
  deletions : Nat
  linesChanged : Nat
  filesChanged : Nat
  statsFiles : List Str
  message : Str

/-- One row of the `commits` table, as assembled by `insert_commit_data`
(lines 109-119). -/
structure CommitsRow where
  commit_sha : String
  authoredDate : Nat
  committedDate : Nat
  author_mail : Str
  committer_mail : Str
  insertions : Nat
  deletions : Nat
  number_of_changed_lines : Nat
  number_of_changed_files : Nat
  changed_files : Str
  message : Str

/-- Embedding of `insert_commit_data` (lines 107-119): the single row pushed
to the `commits` queue for one commit.  The message is the commit message
with every single quote doubled (line 108); the `changed_files` field is the
`', '`-join of the changed-file names (line 118). -/
def insert_commit_data_row (c : CommitInfo) : CommitsRow where
  commit_sha := c.hexsha
  authoredDate := c.authoredDate
  committedDate := c.committedDate
  author_mail := c.authorMail
  committer_mail := c.committerMail
  insertions := c.insertions
  deletions := c.deletions
  number_of_changed_lines := c.linesChanged
  number_of_changed_files := c.filesChanged
  changed_files := joinCF c.statsFiles
  message := escapeQuotes c.message

/-- Embedding of `insert_changed_files_data` (lines 121-124): one
`(commit_sha, file)` row per changed file; nothing is pushed when the
changed-file list is empty (the `if changed_files:` guard). -/
def insert_changed_files_data (changed_files : List Str) (commit_sha : String) :
    List (String × Str) :=
  if changed_files.isEmpty then []
  else changed_files.map (fun f => (commit_sha, f))

/-- The set of file names pushed to the `changed_files` channel for a commit. -/
def pushedFileSet (changed_files : List Str) (commit_sha : String) : Finset Str :=
  ((insert_changed_files_data changed_files commit_sha).map Prod.snd).toFinset

/-- The set of file names a consumer reads back out of the comma-delimited
`changed_files` text column. -/
def commaDelimitedNames (field : Str) : Finset Str :=
  (splitCF field).toFinset

/-! ### The blame sub-pipeline of `insert_git_blame_data` (lines 136-152) -/

/-- The Python value held by the `file_size_limit` parameter.  The argparse
default is the integer `10 * 1024 * 1024`; any value supplied on the command
line arrives as a string (the `--file_size_limit` option on line 265 declares
no `type=` converter); `pyNone` is Python `None`, reachable when `main` is
called directly. -/
inductive PyVal where
  | pyInt : Nat → PyVal
  | pyStr : Str → PyVal
  | pyNone : PyVal
deriving DecidableEq, Repr

/-- Python truthiness of the modelled values: `0`, `''` and `None` are falsy. -/
def pyTruthy : PyVal → Bool
  | .pyInt n => !(n == 0)
  | .pyStr s => !s.isEmpty
  | .pyNone => false

/-- Embedding of the Python comparison `v > m` between the `file_size_limit`
value and the integer file size: comparing a string or `None` with an `int`
raises `TypeError` (`Except.error`). -/
def pyGtNat : PyVal → Nat → Except Unit Bool
  | .pyInt n, m => .ok (decide (m < n))
  | .pyStr _, _ => .error ()
  | .pyNone, _ => .error ()

/-- Embedding of the guard `if file_size_limit and file_size_limit > os.path.getsize(file):`
(line 147).  Python `and` short-circuits: a falsy limit makes the whole
condition falsy without evaluating the comparison, so the `else` (skip)
branch is taken; otherwise the comparison runs and may raise `TypeError`. -/
def sizeGuard (fsl : PyVal) (size : Nat) : Except Unit Bool :=
  if pyTruthy fsl then pyGtNat fsl size else .ok false

/-- Embedding of the `default=10 * 1024 * 1024` argparse option of line 265:
absent on the command line, the built-in integer default is used; supplied,
the raw command-line token arrives as a string (no `type=` converter). -/
def argparseFileSizeLimit : Option String → PyVal
  | some s => .pyStr s.data
  | none => .pyInt (10 * 1024 * 1024)

/-- One candidate file of the working tree as seen by `insert_git_blame_data`:
its path relative to the repo, its size in bytes, the result of hashing its
content (`none` models an I/O error raised while opening or reading it on
line 143), and the `git blame` stdout lines for it. -/
structure FileInfo where
  path : Str
  size : Nat
  hashResult : Option String
  blameOutput : List Str

/-- One row of the `file_commit_mapping` table (line 145). -/
structure MappingRow where
  commit_sha : String
  file_hash : String
  file_name : Str
deriving DecidableEq, Repr

/-- Everything one call of `insert_git_blame_data` pushes or prints:
`mapping` and `blame` are the rows pushed to the `file_commit_mapping` and
`blame` queues (in order); `blamedFiles` records each invocation of
`run_git_blame` (line 150) and `skippedFiles` each size-limit skip message
(line 152); `error` is true when an exception escaped the call (the script
has no `try`/`except`, so such an exception kills the worker process). -/
structure GBOut where
  mapping : List MappingRow
  blame : List BlameRow
  blamedFiles : List Str
  skippedFiles : List Str
  error : Bool
deriving DecidableEq, Repr

/-- The loop body of `insert_git_blame_data` for one candidate file
(lines 143-152), in source order: hash the file (an I/O error here aborts
before any row for this file is pushed), push the `file_commit_mapping` row,
then — when the file is in the changed set or this is commit index 0 —
evaluate the size guard (a `TypeError` aborts), and either run the blame
(whose own parse failure aborts; its rows are pushed all-or-nothing since the
Python `set` loop starts only after `authors_per_line` is fully built) or
print the skip message. -/
def processFile (sha : String) (commit_idx : Nat) (changed_files : List Str)
    (fsl : PyVal) (f : FileInfo) : GBOut :=
  match f.hashResult with
  | none => ⟨[], [], [], [], true⟩
  | some h =>
    let row : MappingRow := ⟨sha, h, f.path⟩
    if f.path ∈ changed_files ∨ commit_idx = 0 then
      match sizeGuard fsl f.size with
      | .error _ => ⟨[row], [], [], [], true⟩
      | .ok true =>
        match run_git_blame h f.blameOutput with
        | none => ⟨[row], [], [f.path], [], true⟩
        | some rows => ⟨[row], rows, [f.path], [], false⟩
      | .ok false => ⟨[row], [], [], [f.path], false⟩
    else ⟨[row], [], [], [], false⟩

/-- The `for file_counter, file in enumerate(all_files):` loop of
`insert_git_blame_data` (line 142): files are processed in order; an
exception escaping one file's body aborts the loop, keeping everything
already pushed but processing no later file. -/
def processFiles (sha : String) (commit_idx : Nat) (changed_files : List Str)
    (fsl : PyVal) : List FileInfo → GBOut
  | [] => ⟨[], [], [], [], false⟩
  | f :: fs =>
    let o := processFile sha commit_idx changed_files fsl f
    if o.error then o
    else
      let r := processFiles sha commit_idx changed_files fsl fs
      ⟨o.mapping ++ r.mapping, o.blame ++ r.blame, o.blamedFiles ++ r.blamedFiles,
       o.skippedFiles ++ r.skippedFiles, r.error⟩

/-- Embedding of `insert_git_blame_data` (lines 136-152).  The working-tree
enumeration `all_files` (the `rglob` of line 141, minus `.git` internals) is
abstracted as the `all_files` parameter.  The whole body is guarded by
`if commit_idx == 0 or not blame_only_for_head:` (line 140): with the flag
set, a revision of nonzero index pushes nothing at all. -/
def insert_git_blame_data (sha : String) (commit_idx : Nat)
    (blame_only_for_head : Bool) (changed_files : List Str) (fsl : PyVal)
    (all_files : List FileInfo) : GBOut :=
  if commit_idx = 0 ∨ blame_only_for_head = false then
    processFiles sha commit_idx changed_files fsl all_files
  else ⟨[], [], [], [], false⟩

/-! ### The multi-worker extraction run (`extraction_func`, lines 159-189, and
the backlog seeding of `main`, lines 224-226)

`main` enqueues the commit indices `0 .. N-1` once.  Each worker loops:
dequeue one index from the shared backlog (`extraction_backlog.get()`, an
atomic FIFO pop), then analyze it — in particular `insert_commit_data` is
called exactly once per dequeued index (line 186), pushing exactly one
`commits` row.  The interleaving of the workers is modelled by a small-step
relation; a step is either an atomic dequeue by an idle worker or the
completion of the body (the single `commits`-row push) by a busy worker.
A run in which a worker blocks forever on an empty backlog never reaches a
final state and is not a successful run. -/

/-- Global state of an extraction run: the backlog queue of pending commit
indices, each worker's in-flight work unit (`some i` between its dequeue and
its `commits`-row push, `none` when idle at the loop head), and the commit
indices of the `commits` rows pushed so far (in push order). -/
structure ExtractionState where
  backlog : List Nat
  workers : List (Option Nat)
  commitsRows : List Nat
deriving DecidableEq, Repr

/-- One atomic step of the extraction run. -/
inductive ExtractionStep : ExtractionState → ExtractionState → Prop
  | deq {bl : List Nat} {i : Nat} {ws : List (Option Nat)} {rows : List Nat}
      {w : Nat} (hw : ws.get? w = some none) :
      ExtractionStep ⟨i :: bl, ws, rows⟩ ⟨bl, ws.set w (some i), rows⟩
  | push {bl : List Nat} {ws : List (Option Nat)} {rows : List Nat}
      {w : Nat} {i : Nat} (hw : ws.get? w = some (some i)) :
      ExtractionStep ⟨bl, ws, rows⟩ ⟨bl, ws.set w none, rows ++ [i]⟩

/-- The initial state of a run over `n` revisions with `k` workers
(`main`, lines 224-241). -/
def initState (n k : Nat) : ExtractionState :=
  ⟨List.range n, List.replicate k none, []⟩

/-- A successful run's end state: the backlog is exhausted and every worker
has finished its last body (no dequeued unit is still in flight). -/
def finalState (s : ExtractionState) : Prop :=
  s.backlog = [] ∧ ∀ o ∈ s.workers, o = none

/-! ### The Injection Writer drain loop (`injection_func`, lines 191-215)

One iteration of the `while True:` loop sweeps the channels, popping at most
one row per nonempty channel and appending it to the sink (lines 205-210),
then stores `injection_queues_all_empty = sum(qsize) == 0` (line 213), and
then — in a separate read — evaluates
`injection_queues_all_empty and extraction_done.get()` (line 214), returning
when it holds.  The size read and the flag read are two distinct
observations with a window between them, so the writer is modelled as a
small-step process with an explicit program counter; worker pushes and the
coordinator's flag set interleave freely with the writer's steps.  A push
can only happen while the flag is unset, because `main` sets the flag
(line 251) only after every worker has been joined (lines 249-250).  The
sweep itself is taken as one atomic step, which is one of the program's
schedulable behaviors (the demonstrated interleaving needs no push during a
sweep). -/

/-- One sweep of the drain loop (lines 205-210): each nonempty channel has
its oldest row popped (`iq.get()`); empty channels are left alone. -/
def sweep (qs : List (List α)) : List (List α) :=
  qs.map List.tail

/-- The rows the sweep pops and appends to the sink, in channel order. -/
def sweepOut (qs : List (List α)) : List α :=
  qs.filterMap List.head?

/-- `sum([q.qsize() for q in queues])` (line 213). -/
def qTotal (qs : List (List α)) : Nat :=
  (qs.map List.length).sum

/-- The Injection Writer's program counter inside the `while True:` loop:
`sweepStart` is the top of the loop body (line 205), `sizeRead` is reached
after the sweep, about to execute line 213, `flagRead b` sits between
line 213 (having computed `injection_queues_all_empty = b`) and the
`extraction_done.get()` read of line 214, and `returned` is the `return` of
line 215. -/
inductive WriterPC where
  | sweepStart : WriterPC
  | sizeRead : WriterPC
  | flagRead : Bool → WriterPC
  | returned : WriterPC
deriving DecidableEq, Repr

/-- A state of the writer/workers/coordinator system: the channel contents,
the shared completion flag, the writer's program counter, and the rows the
writer has appended to the sink so far. -/
structure PipelineState (α : Type) where
  queues : List (List α)
  flag : Bool
  pc : WriterPC
  inserted : List α
deriving DecidableEq, Repr

/-- One atomic step of the pipeline around the drain loop of
`injection_func`:
* `push` — a still-running worker appends a row to channel `k` (possible at
  any writer position, but only while the flag is unset, since `main` sets
  the flag only after joining every worker);
* `setFlag` — the coordinator executes `extraction_done.set(True)`
  (line 251);
* `sweepStep` — the writer runs the `for` loop of lines 205-210, popping one
  row from each nonempty channel and appending those rows to the sink;
* `readSize` — the writer executes line 213, storing the all-empty boolean
  computed from the `qsize` sum at that instant;
* `readFlagReturn` / `readFlagLoop` — the writer executes line 214 on the
  stored boolean and the flag value read now, returning exactly when both
  hold, otherwise looping. -/
inductive PipelineStep (α : Type) : PipelineState α → PipelineState α → Prop
  | push {qs : List (List α)} {pc : WriterPC} {ins : List α} (k : Nat) (r : α)
      (hk : k < qs.length) :
      PipelineStep α ⟨qs, false, pc, ins⟩ ⟨qs.set k (qs[k] ++ [r]), false, pc, ins⟩
  | setFlag {qs : List (List α)} {pc : WriterPC} {ins : List α} :
      PipelineStep α ⟨qs, false, pc, ins⟩ ⟨qs, true, pc, ins⟩
  | sweepStep {qs : List (List α)} {fl : Bool} {ins : List α} :
      PipelineStep α ⟨qs, fl, .sweepStart, ins⟩
        ⟨sweep qs, fl, .sizeRead, ins ++ sweepOut qs⟩
  | readSize {qs : List (List α)} {fl : Bool} {ins : List α} :
      PipelineStep α ⟨qs, fl, .sizeRead, ins⟩
        ⟨qs, fl, .flagRead (qTotal qs == 0), ins⟩
  | readFlagReturn {qs : List (List α)} {ins : List α} :
      PipelineStep α ⟨qs, true, .flagRead true, ins⟩ ⟨qs, true, .returned, ins⟩
  | readFlagLoop {qs : List (List α)} {fl : Bool} {ins : List α} {b : Bool}
      (h : b = false ∨ fl = false) :
      PipelineStep α ⟨qs, fl, .flagRead b, ins⟩ ⟨qs, fl, .sweepStart, ins⟩

/-! ### Helper lemmas -/

lemma escapeQuotes_eq_flatMap (s : Str) :
    escapeQuotes s = s.flatMap (fun c => if c = squote then [c, c] else [c]) := by
  induction s with
  | nil => rfl
  | cons c rest ih =>
    by_cases h : c = squote <;> simp [escapeQuotes, h, ih]

lemma escapeQuotes_length (s : Str) :
    (escapeQuotes s).length = s.length + s.count squote := by
  induction s with
  | nil => rfl
  | cons c rest ih =>
    by_cases h : c = squote <;>
      simp [escapeQuotes, h, ih, List.count_cons] <;> omega

lemma pyListComp_length {α β : Type} {f : α → Option β} :
    ∀ {xs : List α} {ys : List β}, pyListComp f xs = some ys → ys.length = xs.length := by
  intro xs
  induction xs with
  | nil =>
    intro ys h
    simp only [pyListComp, Option.some.injEq] at h
    subst h; rfl
  | cons x t ih =>
    intro ys h
    simp only [pyListComp] at h
    cases hfx : f x with
    | none => rw [hfx] at h; exact absurd h (by simp)
    | some y =>
      cases hrec : pyListComp f t with
      | none => rw [hfx, hrec] at h; exact absurd h (by simp)
      | some ys' =>
        rw [hfx, hrec] at h
        simp only [Option.some.injEq] at h
        subst h
        simp [ih hrec]

/-! ### C10 — commit message quote doubling -/

/-- C10: for every commit, the `message` field of the `commits` row equals the
commit message with every single-quote character replaced by two single-quote
characters; hence whenever the message contains a single quote, the stored
message differs from the actual message. -/
theorem commit_message_quote_doubling (c : CommitInfo) :
    (insert_commit_data_row c).message
        = c.message.flatMap (fun ch => if ch = squote then [ch, ch] else [ch]) ∧
    (squote ∈ c.message → (insert_commit_data_row c).message ≠ c.message) := by
  constructor
  · exact escapeQuotes_eq_flatMap c.message
  · intro hmem heq
    have hlen : (escapeQuotes c.message).length = c.message.length :=
      congrArg List.length heq
    rw [escapeQuotes_length] at hlen
    have hz : c.message.count squote = 0 := by omega
    exact (List.count_eq_zero.mp hz) hmem

/-- Witness for C10 at a message consisting of one single quote. -/
theorem commit_message_quote_doubling_w :
    (insert_commit_data_row ⟨"s", 0, 0, [], [], 0, 0, 0, 0, [], [squote]⟩).message
      ≠ [squote] :=
  (commit_message_quote_doubling ⟨"s", 0, 0, [], [], 0, 0, 0, 0, [], [squote]⟩).2
    (by decide)

lemma sum_map_count_dedup_len_str (l : List Str) :
    (l.dedup.map (fun a => l.count a)).sum = l.length := by
  have h := List.sum_map_count_dedup_eq_length l
  convert h using 3 with a
  funext x
  simp only [List.count, List.countP]
  congr 1
  funext b
  by_cases hbx : b = x <;> simp [hbx]

/-! ### C8 — one blame row per distinct author, counts summing to the
attributed line total -/

/-- C8: whenever `run_git_blame` succeeds, it emits exactly one `blame` row
per distinct author appearing on the `author-mail` lines of the blame output,
each row carrying the file hash and that author's attributed line count, and
the counts sum to the total number of attributed lines. -/
theorem blame_row_per_author_aggregation (h : String) (output : List Str)
    (authors : List Str) (rows : List BlameRow)
    (hparse : pyListComp parseAuthorMail (authorMailLines output) = some authors)
    (hrun : run_git_blame h output = some rows) :
    (rows.map BlameRow.author_mail).Nodup ∧
    (∀ a, a ∈ rows.map BlameRow.author_mail ↔ a ∈ authors) ∧
    (∀ r ∈ rows, r.file_hash = h ∧ r.number_of_chars = authors.count r.author_mail) ∧
    (rows.map BlameRow.number_of_chars).sum = (authorMailLines output).length := by
  rw [run_git_blame, hparse] at hrun
  have hrows : rows = authors.dedup.map (fun a => ⟨h, a, authors.count a⟩) :=
    (Option.some.inj hrun).symm
  subst hrows
  have hmap : (authors.dedup.map
      (fun a => (⟨h, a, authors.count a⟩ : BlameRow))).map BlameRow.author_mail
        = authors.dedup := by
    rw [List.map_map]; simp [Function.comp_def]
  refine ⟨?_, ?_, ?_, ?_⟩
  · rw [hmap]; exact authors.nodup_dedup
  · intro a
    rw [hmap]; exact List.mem_dedup
  · intro r hr
    rw [List.mem_map] at hr
    obtain ⟨a, _, rfl⟩ := hr
    exact ⟨rfl, rfl⟩
  · rw [List.map_map]
    have h1 : (authors.dedup.map
        (BlameRow.number_of_chars ∘ fun a => (⟨h, a, authors.count a⟩ : BlameRow))).sum
          = (authors.dedup.map (fun a => authors.count a)).sum := by
      simp [Function.comp_def]
    rw [h1, sum_map_count_dedup_len_str, pyListComp_length hparse]

/-- The blame output of the C8 witness: three attributed lines, two distinct
authors. -/
def exBlameOutput : List Str :=
  ["author-mail <a@x>".data, "code line".data,
   "author-mail <b@x>".data, "author-mail <a@x>".data]

/-- The parsed per-line authors of `exBlameOutput`. -/
def exAuthors : List Str := ["a@x".data, "b@x".data, "a@x".data]

/-- The blame rows `run_git_blame` produces for `exBlameOutput`. -/
def exBlameRows : List BlameRow :=
  [⟨"h", "b@x".data, 1⟩, ⟨"h", "a@x".data, 2⟩]

/-- Witness for C8 on a concrete blame output. -/
theorem blame_row_per_author_aggregation_w :
    (exBlameRows.map BlameRow.number_of_chars).sum
      = (authorMailLines exBlameOutput).length :=
  (blame_row_per_author_aggregation "h" exBlameOutput exAuthors exBlameRows
    (by decide) (by decide)).2.2.2

/-! ### C3 — oversized files: blame is skipped, but the snapshot row is
still pushed (the `file_commit_mapping` put on line 145 precedes the size
guard on line 147) -/

/-- C3 counterexample: a file of 11 bytes under a 10-byte limit — which the
claim says leaves no row mentioning it in any table — still gets its
`file_commit_mapping` row. -/
theorem oversize_file_mapping_row_emitted :
    (⟨"c", "h1", "big.txt".data⟩ : MappingRow)
      ∈ (insert_git_blame_data "c" 0 false [] (.pyInt 10)
          [⟨"big.txt".data, 11, some "h1", []⟩]).mapping := by decide

/-- C3 amended: for a candidate file whose size reaches a truthy integer
limit, the worker runs no blame (no `blame` row, no `run_git_blame` call)
and logs the skip, but it does push the file's `file_commit_mapping` row. -/
theorem oversize_file_skips_blame_keeps_snapshot (sha : String) (commit_idx : Nat)
    (changed_files : List Str) (L : Nat) (f : FileInfo) (h : String)
    (hL : L ≠ 0) (hsize : L ≤ f.size) (hh : f.hashResult = some h)
    (hcand : f.path ∈ changed_files ∨ commit_idx = 0) :
    processFile sha commit_idx changed_files (.pyInt L) f
      = ⟨[⟨sha, h, f.path⟩], [], [], [f.path], false⟩ := by
  have hguard : sizeGuard (.pyInt L) f.size = .ok false := by
    simp [sizeGuard, pyTruthy, pyGtNat, hL, Nat.not_lt.mpr hsize]
  simp [processFile, hh, hcand, hguard]

/-- Witness for C3's amended theorem at the counterexample file. -/
theorem oversize_file_skips_blame_keeps_snapshot_w :
    processFile "c" 0 [] (.pyInt 10) ⟨"big.txt".data, 11, some "h1", []⟩
      = ⟨[⟨"c", "h1", "big.txt".data⟩], [], [], ["big.txt".data], false⟩ :=
  oversize_file_skips_blame_keeps_snapshot "c" 0 [] 10
    ⟨"big.txt".data, 11, some "h1", []⟩ "h1" (by decide) (by decide) rfl
    (Or.inr rfl)

/-! ### C5 — a falsy (`None`/`0`) file-size limit does not disable the
limit: the guard `if file_size_limit and file_size_limit > size:` is then
falsy, so EVERY candidate file takes the skip branch.  This contradicts the
option's own help text, `Can be turned off by setting it to None`
(line 265): the code is the slip, the claim/documentation the intent. -/

/-- C5 code-bug evidence: with `file_size_limit = None` a 1-byte candidate
file is skipped (and "skipped because of user defined file size limit" is
printed), and no blame runs — the documented behavior is that nothing is
skipped. -/
theorem disabled_limit_skips_every_file :
    (insert_git_blame_data "c" 0 false [] .pyNone
        [⟨"a.txt".data, 1, some "h", ["author-mail <a@x>".data]⟩]).blamedFiles = []
    ∧ (insert_git_blame_data "c" 0 false [] .pyNone
        [⟨"a.txt".data, 1, some "h", ["author-mail <a@x>".data]⟩]).skippedFiles
        = ["a.txt".data]
    ∧ (insert_git_blame_data "c" 0 false [] .pyNone
        [⟨"a.txt".data, 1, some "h", ["author-mail <a@x>".data]⟩]).blame = [] := by
  decide

/-! ### C6 — an I/O error on one file is NOT contained: the script has no
`try`/`except`, so the exception aborts the whole per-file loop (and the
worker); rows pushed for earlier files stay pushed, later files are never
processed -/

/-- C6 counterexample: a hash I/O error on the first file aborts the
WorkUnit — the second file's snapshot row is never pushed, contradicting
"continues processing the remaining candidate files". -/
theorem hash_error_aborts_workunit_example :
    ((insert_git_blame_data "c" 0 false [] (.pyInt 100)
        [⟨"a.txt".data, 1, none, []⟩, ⟨"b.txt".data, 1, some "h2", []⟩]).error = true)
    ∧ (⟨"c", "h2", "b.txt".data⟩ : MappingRow)
        ∉ (insert_git_blame_data "c" 0 false [] (.pyInt 100)
            [⟨"a.txt".data, 1, none, []⟩, ⟨"b.txt".data, 1, some "h2", []⟩]).mapping := by
  decide

/-- C6 amended: an error while hashing or blaming one file propagates out of
the per-file loop: the rows pushed for the earlier (error-free) files and
for the failing file itself remain pushed, the loop reports the escaped
exception, and no later file is processed. -/
theorem io_error_aborts_remaining_files (sha : String) (commit_idx : Nat)
    (changed_files : List Str) (fsl : PyVal) (fs₁ : List FileInfo)
    (f : FileInfo) (fs₂ : List FileInfo)
    (h₁ : ∀ g ∈ fs₁, (processFile sha commit_idx changed_files fsl g).error = false)
    (hf : (processFile sha commit_idx changed_files fsl f).error = true) :
    processFiles sha commit_idx changed_files fsl (fs₁ ++ f :: fs₂)
      = ⟨(processFiles sha commit_idx changed_files fsl fs₁).mapping
            ++ (processFile sha commit_idx changed_files fsl f).mapping,
         (processFiles sha commit_idx changed_files fsl fs₁).blame
            ++ (processFile sha commit_idx changed_files fsl f).blame,
         (processFiles sha commit_idx changed_files fsl fs₁).blamedFiles
            ++ (processFile sha commit_idx changed_files fsl f).blamedFiles,
         (processFiles sha commit_idx changed_files fsl fs₁).skippedFiles
            ++ (processFile sha commit_idx changed_files fsl f).skippedFiles,
         true⟩ := by
  induction fs₁ with
  | nil =>
    simp only [List.nil_append, processFiles, hf, if_pos]
    have : processFile sha commit_idx changed_files fsl f
        = ⟨(processFile sha commit_idx changed_files fsl f).mapping,
           (processFile sha commit_idx changed_files fsl f).blame,
           (processFile sha commit_idx changed_files fsl f).blamedFiles,
           (processFile sha commit_idx changed_files fsl f).skippedFiles,
           (processFile sha commit_idx changed_files fsl f).error⟩ := rfl
    rw [this, hf]
  | cons g t ih =>
    have hg : (processFile sha commit_idx changed_files fsl g).error = false :=
      h₁ g (List.mem_cons_self g t)
    have ht : ∀ x ∈ t, (processFile sha commit_idx changed_files fsl x).error = false :=
      fun x hx => h₁ x (List.mem_cons_of_mem g hx)
    have ih' := ih ht
    simp only [List.append_eq] at ih'
    simp only [List.cons_append, processFiles, hg, if_neg, Bool.false_eq_true,
      not_false_eq_true, List.append_eq, ih', List.append_assoc]

/-- Witness for C6's amended theorem: one good file, then a file whose hash
raises, then a file that is consequently never processed. -/
theorem io_error_aborts_remaining_files_w :
    processFiles "c" 0 [] (.pyInt 100)
        [⟨"a.txt".data, 1, some "h1", []⟩, ⟨"b.txt".data, 1, none, []⟩,
         ⟨"d.txt".data, 1, some "h3", []⟩]
      = ⟨(processFiles "c" 0 [] (.pyInt 100) [⟨"a.txt".data, 1, some "h1", []⟩]).mapping
            ++ (processFile "c" 0 [] (.pyInt 100) ⟨"b.txt".data, 1, none, []⟩).mapping,
         (processFiles "c" 0 [] (.pyInt 100) [⟨"a.txt".data, 1, some "h1", []⟩]).blame
            ++ (processFile "c" 0 [] (.pyInt 100) ⟨"b.txt".data, 1, none, []⟩).blame,
         (processFiles "c" 0 [] (.pyInt 100) [⟨"a.txt".data, 1, some "h1", []⟩]).blamedFiles
            ++ (processFile "c" 0 [] (.pyInt 100) ⟨"b.txt".data, 1, none, []⟩).blamedFiles,
         (processFiles "c" 0 [] (.pyInt 100) [⟨"a.txt".data, 1, some "h1", []⟩]).skippedFiles
            ++ (processFile "c" 0 [] (.pyInt 100) ⟨"b.txt".data, 1, none, []⟩).skippedFiles,
         true⟩ :=
  io_error_aborts_remaining_files "c" 0 [] (.pyInt 100)
    [⟨"a.txt".data, 1, some "h1", []⟩] ⟨"b.txt".data, 1, none, []⟩
    [⟨"d.txt".data, 1, some "h3", []⟩] (by decide) (by decide)

/-! ### C9 — a `--file_size_limit` value supplied on the command line is a
string; a nonempty string makes the guard raise `TypeError` at the first
candidate file, but the empty string is falsy and short-circuits instead -/

/-- C9 counterexample: supplying the empty string on the command line makes
the limit falsy, so the first candidate file is skipped without any
`TypeError` — the claim's "for every run in which --file_size_limit is
supplied ... raises a type error" is too strong. -/
theorem empty_string_limit_no_type_error :
    ((insert_git_blame_data "c" 0 false [] (argparseFileSizeLimit (some ""))
        [⟨"a.txt".data, 1, some "h", []⟩]).error = false)
    ∧ (insert_git_blame_data "c" 0 false [] (argparseFileSizeLimit (some ""))
        [⟨"a.txt".data, 1, some "h", []⟩]).skippedFiles = ["a.txt".data] := by
  decide

/-- C9 amended: any NONEMPTY string supplied for `--file_size_limit`
(including the documented `None`) reaches the size guard as a string, whose
comparison with the integer file size raises `TypeError` at the first
candidate file — the file is neither skipped-with-log nor blamed, and the
exception escapes (killing the worker).  Only the integer default or the
empty string avoid the error. -/
theorem supplied_limit_string_raises_type_error (s : String) (sha : String)
    (commit_idx : Nat) (changed_files : List Str) (f : FileInfo) (h : String)
    (hs : s ≠ "") (hh : f.hashResult = some h)
    (hcand : f.path ∈ changed_files ∨ commit_idx = 0) :
    sizeGuard (argparseFileSizeLimit (some s)) f.size = .error () ∧
    processFile sha commit_idx changed_files (argparseFileSizeLimit (some s)) f
      = ⟨[⟨sha, h, f.path⟩], [], [], [], true⟩ := by
  have hdata : s.data ≠ [] := by
    intro hd
    exact hs (by cases s; simp_all)
  have hguard : sizeGuard (argparseFileSizeLimit (some s)) f.size = .error () := by
    simp [argparseFileSizeLimit, sizeGuard, pyTruthy, pyGtNat,
      List.isEmpty_iff, hdata]
  exact ⟨hguard, by simp [processFile, hh, hcand, hguard]⟩

/-- Witness for C9's amended theorem at the documented value `"None"`. -/
theorem supplied_limit_string_raises_type_error_w :
    processFile "c" 0 [] (argparseFileSizeLimit (some "None"))
        ⟨"a.txt".data, 1, some "h", []⟩
      = ⟨[⟨"c", "h", "a.txt".data⟩], [], [], [], true⟩ :=
  (supplied_limit_string_raises_type_error "None" "c" 0 []
    ⟨"a.txt".data, 1, some "h", []⟩ "h" (by decide) rfl (Or.inr rfl)).2

/-! ### C4 — which files actually get blamed -/

/-- The size guard of line 147 lets the file through to `run_git_blame`. -/
def guardPasses (fsl : PyVal) (size : Nat) : Bool :=
  match sizeGuard fsl size with
  | .ok true => true
  | _ => false

/-- The size guard of line 147 raises `TypeError`. -/
def guardRaises (fsl : PyVal) (size : Nat) : Bool :=
  match sizeGuard fsl size with
  | .error _ => true
  | _ => false

/-- Per-file outcome in the error-free case: the file reaches
`run_git_blame` exactly when it is in the changed set (or the commit index
is 0) and it passes the size guard. -/
lemma processFile_ok (sha : String) (commit_idx : Nat) (changed_files : List Str)
    (fsl : PyVal) (f : FileInfo)
    (hhash : f.hashResult.isSome)
    (hguard : guardRaises fsl f.size = false)
    (hblame : (pyListComp parseAuthorMail (authorMailLines f.blameOutput)).isSome) :
    (processFile sha commit_idx changed_files fsl f).error = false ∧
    (processFile sha commit_idx changed_files fsl f).blamedFiles
      = if decide (f.path ∈ changed_files ∨ commit_idx = 0)
            && guardPasses fsl f.size
        then [f.path] else [] := by
  obtain ⟨h, hh⟩ := Option.isSome_iff_exists.mp hhash
  by_cases hcand : f.path ∈ changed_files ∨ commit_idx = 0
  · cases hg : sizeGuard fsl f.size with
    | error e => simp [guardRaises, hg] at hguard
    | ok b =>
      cases b with
      | false => simp [processFile, hh, hcand, hg, guardPasses]
      | true =>
        obtain ⟨authors, hauth⟩ := Option.isSome_iff_exists.mp hblame
        have hrun : run_git_blame h f.blameOutput
            = some (authors.dedup.map (fun a => ⟨h, a, authors.count a⟩)) := by
          rw [run_git_blame, hauth]
        simp [processFile, hh, hcand, hg, hrun, guardPasses]
  · simp [processFile, hh, hcand]

/-- List-level characterization of the error-free per-file loop. -/
lemma processFiles_blamed_characterization (sha : String) (commit_idx : Nat)
    (changed_files : List Str) (fsl : PyVal) (files : List FileInfo)
    (hok : ∀ f ∈ files, (processFile sha commit_idx changed_files fsl f).error = false ∧
        (processFile sha commit_idx changed_files fsl f).blamedFiles
          = if decide (f.path ∈ changed_files ∨ commit_idx = 0)
                && guardPasses fsl f.size
            then [f.path] else []) :
    (processFiles sha commit_idx changed_files fsl files).blamedFiles
      = (files.filter (fun f =>
            decide (f.path ∈ changed_files ∨ commit_idx = 0)
              && guardPasses fsl f.size)).map FileInfo.path := by
  induction files with
  | nil => rfl
  | cons f t ih =>
    obtain ⟨hf, hbl⟩ := hok f (List.mem_cons_self f t)
    have ht := fun x hx => hok x (List.mem_cons_of_mem f hx)
    simp only [processFiles, hf, Bool.false_eq_true, not_false_eq_true, if_neg]
    simp only [List.filter_cons]
    rw [hbl, ih ht]
    by_cases hc : (decide (f.path ∈ changed_files ∨ commit_idx = 0)
        && guardPasses fsl f.size) = true
    · rw [if_pos hc, if_pos hc, List.map_cons, List.singleton_append]
    · rw [if_neg hc, if_neg hc, List.nil_append]

/-- C4 amended: in an error-free run of `insert_git_blame_data`, blame is
invoked on a file iff the body runs at all (commit index 0, or the
head-only flag unset) AND the file is a candidate (in the revision's
changed-file set, or commit index 0) AND it passes the size guard.  In
particular, with the flag set, a revision of nonzero index blames nothing
(not even its changed files); with the flag unset, a nonzero-index revision
blames only its changed files, never every working-tree file. -/
theorem blame_targets_characterization (sha : String) (commit_idx : Nat)
    (blame_only_for_head : Bool) (changed_files : List Str) (fsl : PyVal)
    (files : List FileInfo)
    (hhash : ∀ f ∈ files, f.hashResult.isSome)
    (hguard : ∀ f ∈ files, guardRaises fsl f.size = false)
    (hblame : ∀ f ∈ files,
        (pyListComp parseAuthorMail (authorMailLines f.blameOutput)).isSome) :
    (insert_git_blame_data sha commit_idx blame_only_for_head changed_files fsl
        files).blamedFiles
      = if commit_idx = 0 ∨ blame_only_for_head = false then
          (files.filter (fun f =>
            decide (f.path ∈ changed_files ∨ commit_idx = 0)
              && guardPasses fsl f.size)).map FileInfo.path
        else [] := by
  by_cases hrun : commit_idx = 0 ∨ blame_only_for_head = false
  · rw [insert_git_blame_data, if_pos hrun, if_pos hrun]
    exact processFiles_blamed_characterization sha commit_idx changed_files fsl files
      (fun f hf => processFile_ok sha commit_idx changed_files fsl f
        (hhash f hf) (hguard f hf) (hblame f hf))
  · rw [insert_git_blame_data, if_neg hrun, if_neg hrun]

/-- C4 counterexample: head-only flag set, commit index 1, the single
working-tree file listed as changed — yet blame is NOT run on it. -/
theorem head_only_flag_blames_nothing_for_nonzero_index :
    "a.txt".data ∉ (insert_git_blame_data "c" 1 true ["a.txt".data] (.pyInt 10)
        [⟨"a.txt".data, 1, some "h", []⟩]).blamedFiles := by decide

/-- Witness for C4's amended theorem: flag unset, commit index 1, one
changed and one unchanged file — only the changed one is blamed. -/
theorem blame_targets_characterization_w :
    (insert_git_blame_data "c" 1 false ["a.txt".data] (.pyInt 10)
        [⟨"a.txt".data, 1, some "h1", []⟩, ⟨"b.txt".data, 1, some "h2", []⟩]).blamedFiles
      = if (1 : Nat) = 0 ∨ (false : Bool) = false then
          (([⟨"a.txt".data, 1, some "h1", []⟩, ⟨"b.txt".data, 1, some "h2", []⟩]
              : List FileInfo).filter (fun f =>
            decide (f.path ∈ [("a.txt".data : Str)] ∨ (1 : Nat) = 0)
              && guardPasses (.pyInt 10) f.size)).map FileInfo.path
        else [] :=
  blame_targets_characterization "c" 1 false ["a.txt".data] (.pyInt 10)
    [⟨"a.txt".data, 1, some "h1", []⟩, ⟨"b.txt".data, 1, some "h2", []⟩]
    (by decide) (by decide) (by decide)

/-! ### C7 — pushed changed-file rows versus the comma-delimited
`changed_files` field -/

lemma splitCF_sepFree (x : Str) (hx : ¬ ([',', ' '] <:+: x)) :
    splitCF x = [x] := by
  induction x with
  | nil => simp [splitCF]
  | cons c t ih =>
    have ht : ¬ ([',', ' '] <:+: t) := fun hinf => hx (List.infix_cons hinf)
    cases t with
    | nil => simp [splitCF]
    | cons c₂ xs =>
      have hcond : ¬ (c = ',' ∧ c₂ = ' ') := by
        rintro ⟨rfl, rfl⟩
        exact hx ⟨[], xs, rfl⟩
      rw [splitCF, if_neg hcond, ih ht]

lemma splitCF_append_sep (rest : Str) (x : Str) (hx : ¬ ([',', ' '] <:+: x)) :
    splitCF (x ++ ',' :: ' ' :: rest) = x :: splitCF rest := by
  induction x with
  | nil =>
    show splitCF (',' :: ' ' :: rest) = [] :: splitCF rest
    rw [splitCF, if_pos ⟨rfl, rfl⟩]
  | cons c t ih =>
    have ht : ¬ ([',', ' '] <:+: t) := fun hinf => hx (List.infix_cons hinf)
    have hinner := ih ht
    cases t with
    | nil =>
      have hcond : ¬ (c = ',' ∧ (',' : Char) = ' ') := by
        rintro ⟨_, h2⟩
        exact absurd h2 (by decide)
      show splitCF (c :: ',' :: ' ' :: rest) = [c] :: splitCF rest
      rw [splitCF, if_neg hcond]
      rw [List.nil_append] at hinner
      rw [hinner]
    | cons c₂ xs =>
      have hcond : ¬ (c = ',' ∧ c₂ = ' ') := by
        rintro ⟨rfl, rfl⟩
        exact hx ⟨[], xs, rfl⟩
      show splitCF (c :: c₂ :: (xs ++ ',' :: ' ' :: rest)) = (c :: c₂ :: xs) :: splitCF rest
      rw [splitCF, if_neg hcond]
      rw [List.cons_append] at hinner
      rw [hinner]

lemma splitCF_joinCF (ns : List Str) (hne : ns ≠ [])
    (hsep : ∀ n ∈ ns, ¬ ([',', ' '] <:+: n)) :
    splitCF (joinCF ns) = ns := by
  induction ns with
  | nil => exact absurd rfl hne
  | cons x t ih =>
    cases t with
    | nil =>
      have hx := hsep x (List.mem_cons_self x [])
      show splitCF (joinCF [x]) = [x]
      rw [joinCF]
      exact splitCF_sepFree x hx
    | cons y ys =>
      have hx := hsep x (List.mem_cons_self x (y :: ys))
      rw [joinCF, splitCF_append_sep _ x hx,
        ih (by simp) (fun n hn => hsep n (List.mem_cons_of_mem x hn))]

/-- The commit of the C7 counterexample: its single changed file has the
separator `', '` inside its (legal) name. -/
def exCommitC7 : CommitInfo := ⟨"c1", 0, 0, [], [], 0, 0, 0, 1, ["a, b".data], []⟩

/-- C7 counterexample: for a changed file named `a, b`, the set of file
names pushed to the `changed_files` channel (the one name `a, b`) differs
from the set of names appearing comma-delimited in the `changed_files`
field of the commits row (which reads back as `a` and `b`). -/
theorem comma_name_breaks_field_roundtrip :
    pushedFileSet exCommitC7.statsFiles "c1"
      ≠ commaDelimitedNames (insert_commit_data_row exCommitC7).changed_files := by
  decide

/-- C7 amended: provided the revision's changed-file set is nonempty and no
changed file name contains the two-character separator `', '`, the set of
file names pushed as `(commit_sha, file_name)` rows equals the set of names
appearing comma-delimited in the `changed_files` field of the commits row
for the same commit, and every pushed row carries that commit's sha. -/
theorem changed_files_field_roundtrip (c : CommitInfo) (sha : String)
    (hne : c.statsFiles ≠ [])
    (hsep : ∀ n ∈ c.statsFiles, ¬ ([',', ' '] <:+: n)) :
    pushedFileSet c.statsFiles sha
        = commaDelimitedNames (insert_commit_data_row c).changed_files ∧
    (insert_changed_files_data c.statsFiles sha).map Prod.fst
        = c.statsFiles.map (fun _ => sha) := by
  have hfield : (insert_commit_data_row c).changed_files = joinCF c.statsFiles := rfl
  have hempty : c.statsFiles.isEmpty = false := by
    cases hcs : c.statsFiles with
    | nil => exact absurd hcs hne
    | cons a l => rfl
  constructor
  · rw [hfield]
    unfold pushedFileSet commaDelimitedNames insert_changed_files_data
    rw [splitCF_joinCF c.statsFiles hne hsep, hempty]
    simp [Function.comp_def]
  · unfold insert_changed_files_data
    rw [hempty]
    simp [Function.comp_def]

/-- Witness for C7's amended theorem at a two-file commit. -/
theorem changed_files_field_roundtrip_w :
    pushedFileSet (⟨"c1", 0, 0, [], [], 0, 0, 0, 2,
        ["a".data, "b".data], []⟩ : CommitInfo).statsFiles "c1"
      = commaDelimitedNames (insert_commit_data_row
          ⟨"c1", 0, 0, [], [], 0, 0, 0, 2, ["a".data, "b".data], []⟩).changed_files :=
  (changed_files_field_roundtrip
    ⟨"c1", 0, 0, [], [], 0, 0, 0, 2, ["a".data, "b".data], []⟩ "c1"
    (by decide) (by decide)).1

/-! ### C1 — exactly one commits row per enqueued WorkUnit -/

/-- The work units dequeued but whose `commits` row is not yet pushed. -/
def inFlight (ws : List (Option Nat)) : List Nat := ws.filterMap id

lemma inFlight_set_some (ws : List (Option Nat)) (w i : Nat)
    (hw : ws.get? w = some none) :
    List.Perm (inFlight (ws.set w (some i))) (i :: inFlight ws) := by
  induction ws generalizing w with
  | nil => simp at hw
  | cons o t ih =>
    cases w with
    | zero =>
      simp only [List.get?, Option.some.injEq] at hw
      subst hw
      simp [inFlight, List.set]
    | succ w' =>
      simp only [List.get?] at hw
      cases o with
      | none =>
        simpa [inFlight, List.set] using ih w' hw
      | some a =>
        simp only [inFlight, List.set, List.filterMap_cons, id_eq]
        exact ((ih w' hw).cons a).trans (List.Perm.swap i a _)

lemma inFlight_set_none (ws : List (Option Nat)) (w i : Nat)
    (hw : ws.get? w = some (some i)) :
    List.Perm (inFlight ws) (i :: inFlight (ws.set w none)) := by
  induction ws generalizing w with
  | nil => simp at hw
  | cons o t ih =>
    cases w with
    | zero =>
      simp only [List.get?, Option.some.injEq] at hw
      subst hw
      simp [inFlight, List.set]
    | succ w' =>
      simp only [List.get?] at hw
      cases o with
      | none =>
        simpa [inFlight, List.set] using ih w' hw
      | some a =>
        simp only [inFlight, List.set, List.filterMap_cons, id_eq]
        exact ((ih w' hw).cons a).trans (List.Perm.swap i a _)

/-- Every extraction step preserves the multiset
backlog ⊎ in-flight units ⊎ pushed rows. -/
lemma extraction_step_preserves {s t : ExtractionState} (h : ExtractionStep s t) :
    List.Perm (t.backlog ++ inFlight t.workers ++ t.commitsRows)
              (s.backlog ++ inFlight s.workers ++ s.commitsRows) := by
  cases h with
  | deq hw =>
    rename_i bl i ws rows w
    have h1 := inFlight_set_some ws w i hw
    exact (((h1.append_left bl).append_right rows).trans
      (List.perm_middle.append_right rows))
  | push hw =>
    rename_i bl ws rows w i
    have h2 := inFlight_set_none ws w i hw
    have hl : List.Perm ((bl ++ inFlight (ws.set w none)) ++ (rows ++ [i]))
        (i :: ((bl ++ inFlight (ws.set w none)) ++ rows)) := by
      have := (List.perm_append_singleton i rows).append_left
        (bl ++ inFlight (ws.set w none))
      rw [← List.append_assoc] at this
      exact ((List.append_assoc _ rows [i]) ▸ this).trans
        (List.perm_middle)
    have hr : List.Perm ((bl ++ inFlight ws) ++ rows)
        (i :: ((bl ++ inFlight (ws.set w none)) ++ rows)) :=
      ((h2.append_left bl).append_right rows).trans
        (List.perm_middle.append_right rows)
    exact hl.trans hr.symm

lemma extraction_reach_preserves {s t : ExtractionState}
    (h : Relation.ReflTransGen ExtractionStep s t) :
    List.Perm (t.backlog ++ inFlight t.workers ++ t.commitsRows)
              (s.backlog ++ inFlight s.workers ++ s.commitsRows) := by
  induction h with
  | refl => exact List.Perm.refl _
  | tail _hpre hstep ih => exact (extraction_step_preserves hstep).trans ih

/-- C1: for a run over `n` enqueued revisions with any worker count from 1
through `n`, every successful run (one that reaches a final state: backlog
empty, no unit in flight) has pushed exactly the commit indices `0 .. n-1`
to the `commits` channel — one row per enqueued WorkUnit, no duplicates, no
omissions. -/
theorem commits_table_coverage (n k : Nat) (hk : 1 ≤ k) (hkn : k ≤ n)
    (s : ExtractionState)
    (hreach : Relation.ReflTransGen ExtractionStep (initState n k) s)
    (hfinal : finalState s) :
    List.Perm s.commitsRows (List.range n) ∧ s.commitsRows.length = n ∧
    s.commitsRows.Nodup ∧ (∀ i, i ∈ s.commitsRows ↔ i < n) := by
  have hperm := extraction_reach_preserves hreach
  have hinit : (initState n k).backlog ++ inFlight (initState n k).workers
      ++ (initState n k).commitsRows = List.range n := by
    have hrep : inFlight (List.replicate k (none : Option Nat)) = [] :=
      List.filterMap_eq_nil_iff.mpr
        (fun a ha => by rw [List.eq_of_mem_replicate ha]; rfl)
    simp [initState, hrep]
  obtain ⟨hbl, hws⟩ := hfinal
  have hfl : inFlight s.workers = [] :=
    List.filterMap_eq_nil_iff.mpr (fun a ha => by rw [hws a ha]; rfl)
  rw [hinit, hbl, hfl, List.nil_append, List.nil_append] at hperm
  refine ⟨hperm, ?_, ?_, ?_⟩
  · rw [hperm.length_eq, List.length_range]
  · exact hperm.nodup_iff.mpr (List.nodup_range n)
  · intro i
    rw [hperm.mem_iff, List.mem_range]

/-- Witness for C1: two revisions, one worker, the four-step run that
dequeues and pushes both units. -/
theorem commits_table_coverage_w :
    List.Perm (⟨[], [none], [0, 1]⟩ : ExtractionState).commitsRows
      (List.range 2) := by
  have h0 : initState 2 1 = ⟨[0, 1], [none], []⟩ := rfl
  have s1 : ExtractionStep ⟨[0, 1], [none], []⟩ ⟨[1], [some 0], []⟩ :=
    @ExtractionStep.deq [1] 0 [none] [] 0 rfl
  have s2 : ExtractionStep ⟨[1], [some 0], []⟩ ⟨[1], [none], [0]⟩ :=
    @ExtractionStep.push [1] [some 0] [] 0 0 rfl
  have s3 : ExtractionStep ⟨[1], [none], [0]⟩ ⟨[], [some 1], [0]⟩ :=
    @ExtractionStep.deq [] 1 [none] [0] 0 rfl
  have s4 : ExtractionStep ⟨[], [some 1], [0]⟩ ⟨[], [none], [0, 1]⟩ :=
    @ExtractionStep.push [] [some 1] [0] 0 1 rfl
  refine (commits_table_coverage 2 1 (by decide) (by decide)
    ⟨[], [none], [0, 1]⟩ ?_ ⟨rfl, by decide⟩).1
  rw [h0]
  exact Relation.ReflTransGen.head s1 (Relation.ReflTransGen.head s2
    (Relation.ReflTransGen.head s3 (Relation.ReflTransGen.head s4
      Relation.ReflTransGen.refl)))

/-! ### C2 — the Injection Writer drain loop -/

/-- The start of the C2 demonstration: all channels drained, flag unset, the
writer at the top of the loop body, with one worker still about to push its
final row. -/
def raceInit : PipelineState Nat := ⟨[[], []], false, .sweepStart, []⟩

/-- The end of the C2 demonstration: the writer has returned while channel 0
still holds the row `7`, which was pushed but never appended to the sink. -/
def raceFinal : PipelineState Nat := ⟨[[7], []], true, .returned, []⟩

/-- C2 is a code bug: the two-part termination check of `injection_func` is
not atomic — line 213 reads the `qsize` sum BEFORE line 214 reads
`extraction_done.get()`, and no drain sweep follows the flag observation.
In the realizable interleaving below, the sweep drains nothing, the size
read stores all-empty = true, a worker then pushes its last row and exits,
the coordinator joins all workers and sets the flag, and only then the
writer reads the flag: the check fires and the writer returns with the
pushed row still in its channel, never inserted — a lost row, violating the
claim (and the guarantee spec section 4.4 requires). -/
theorem writer_check_race_loses_row :
    Relation.ReflTransGen (PipelineStep Nat) raceInit raceFinal ∧
    raceFinal.pc = WriterPC.returned ∧ raceFinal.inserted = [] ∧
    raceFinal.queues.flatten = [7] := by
  refine ⟨?_, rfl, rfl, rfl⟩
  have s1 : PipelineStep Nat ⟨[[], []], false, .sweepStart, []⟩
      ⟨[[], []], false, .sizeRead, []⟩ := PipelineStep.sweepStep
  have s2 : PipelineStep Nat ⟨[[], []], false, .sizeRead, []⟩
      ⟨[[], []], false, .flagRead true, []⟩ := PipelineStep.readSize
  have s3 : PipelineStep Nat ⟨[[], []], false, .flagRead true, []⟩
      ⟨[[7], []], false, .flagRead true, []⟩ :=
    PipelineStep.push 0 7 (by decide)
  have s4 : PipelineStep Nat ⟨[[7], []], false, .flagRead true, []⟩
      ⟨[[7], []], true, .flagRead true, []⟩ := PipelineStep.setFlag
  have s5 : PipelineStep Nat ⟨[[7], []], true, .flagRead true, []⟩
      ⟨[[7], []], true, .returned, []⟩ := PipelineStep.readFlagReturn
  exact Relation.ReflTransGen.head s1 (Relation.ReflTransGen.head s2
    (Relation.ReflTransGen.head s3 (Relation.ReflTransGen.head s4
      (Relation.ReflTransGen.head s5 Relation.ReflTransGen.refl))))

end GitToHyper
